import Mathlib

/-!
Verification development for the chat-frontend incremental parsing layer:
the object-literal completeness scanner, the `option = ...` block
extractor, the loose-literal normalizer, and the SSE stream chunk
processors of the chat components.

All definitions are shallow embeddings of the TypeScript source
(`CChart.vue`, the table component, `Chatbot.vue`, and the conversation
view), operating on `List Char` / `String`.
-/

namespace GenAI

/-- The left-brace character, written via its code point. -/
def lbrace : Char := Char.ofNat 123

/-- The right-brace character, written via its code point. -/
def rbrace : Char := Char.ofNat 125

/-- The double-quote character. -/
def dquote : Char := Char.ofNat 34

/-- The single-quote character. -/
def squote : Char := Char.ofNat 39

/-- The backslash character. -/
def bslash : Char := Char.ofNat 92

/-- The semicolon character. -/
def semi : Char := Char.ofNat 59

/-- JavaScript whitespace (the class matched by `\s` and stripped by
`String.prototype.trim`): tab, LF, VT, FF, CR, space, NBSP, and the
Unicode space separators, line/paragraph separators and BOM. -/
def jsWs (c : Char) : Bool :=
  let n := c.val
  n == 9 || n == 10 || n == 11 || n == 12 || n == 13 || n == 32 ||
  n == 160 || n == 0x1680 || (0x2000 ≤ n && n ≤ 0x200A) ||
  n == 0x2028 || n == 0x2029 || n == 0x202F || n == 0x205F ||
  n == 0x3000 || n == 0xFEFF

/-- Model of JavaScript `String.prototype.trim` on a character list. -/
def jsTrim (l : List Char) : List Char :=
  ((l.dropWhile jsWs).reverse.dropWhile jsWs).reverse

/-- Model of `trim` on a Lean `String`, via the character-list model. -/
def jsTrimStr (s : String) : String :=
  String.mk (jsTrim s.data)

/-! ## Completeness scanner (`isCompleteJSON` in CChart.vue / CTable) -/

/-- Scanner state of `isCompleteJSON`: the brace counter, the
in-string flag, the active quote character, and the escape flag. -/
structure ScanState where
  brace : Int
  inString : Bool
  stringChar : Option Char
  escapeNext : Bool
deriving DecidableEq

/-- Initial scanner state (`braceCount = 0`, not in a string). -/
def ScanState.init : ScanState :=
  { brace := 0, inString := false, stringChar := none, escapeNext := false }

/-- Source condition `remaining === ''` where
`remaining = trimmed.slice(i+1).trim().replace(/;?\s*$/, '')`:
after trimming, the text after the closing brace must be empty or a
single semicolon (the regex removes at most one trailing `;`). -/
def remainOK (rest : List Char) : Bool :=
  let r := jsTrim rest
  r == [] || r == [semi]

/-- The character loop of `isCompleteJSON`, including its early
`return` at the first brace that brings the counter to zero; at the
end of the input it returns `braceCount === 0`. -/
def isCompleteCore : ScanState → List Char → Bool
  | st, [] => st.brace == 0
  | st, c :: cs =>
    if st.escapeNext then
      isCompleteCore { st with escapeNext := false } cs
    else if c = bslash then
      isCompleteCore { st with escapeNext := true } cs
    else if c = dquote ∨ c = squote then
      if st.inString = false then
        isCompleteCore { st with inString := true, stringChar := some c } cs
      else if st.stringChar = some c then
        isCompleteCore { st with inString := false, stringChar := none } cs
      else
        isCompleteCore st cs
    else if st.inString = false then
      if c = lbrace then
        isCompleteCore { st with brace := st.brace + 1 } cs
      else if c = rbrace then
        if st.brace - 1 = 0 then remainOK cs
        else isCompleteCore { st with brace := st.brace - 1 } cs
      else
        isCompleteCore st cs
    else
      isCompleteCore st cs

/-- Source `isCompleteJSON(str)`: trim, require a leading `{`, then run the
brace-matching loop. -/
def isCompleteJSON (s : String) : Bool :=
  let t := jsTrim s.data
  decide (t.head? = some lbrace) && isCompleteCore ScanState.init t

/-! ### Pure scanner evolution, for stating the specification

`scanStep` advolves the state over one character exactly like the loop
of `isCompleteJSON`, but with no early exit; `firstCloseSplit` locates
the early-exit point of the loop (the first `}` met outside a string,
unescaped, with the counter at 1) and returns the remaining suffix. -/

/-- One step of the scanner on one character (no early exit). -/
def scanStep (st : ScanState) (c : Char) : ScanState :=
  if st.escapeNext then
    { st with escapeNext := false }
  else if c = bslash then
    { st with escapeNext := true }
  else if c = dquote ∨ c = squote then
    if st.inString = false then
      { st with inString := true, stringChar := some c }
    else if st.stringChar = some c then
      { st with inString := false, stringChar := none }
    else
      st
  else if st.inString = false then
    if c = lbrace then
      { st with brace := st.brace + 1 }
    else if c = rbrace then
      { st with brace := st.brace - 1 }
    else
      st
  else
    st

/-- Scanner state after a character list. -/
def scanFold (st : ScanState) (l : List Char) : ScanState :=
  l.foldl scanStep st

/-- The suffix after the first `}` at which the brace counter returns
to zero (scanned outside strings, unescaped); `none` when the counter
never returns to zero. -/
def firstCloseSplit : ScanState → List Char → Option (List Char)
  | _, [] => none
  | st, c :: cs =>
    if st.escapeNext then
      firstCloseSplit { st with escapeNext := false } cs
    else if c = bslash then
      firstCloseSplit { st with escapeNext := true } cs
    else if c = dquote ∨ c = squote then
      if st.inString = false then
        firstCloseSplit { st with inString := true, stringChar := some c } cs
      else if st.stringChar = some c then
        firstCloseSplit { st with inString := false, stringChar := none } cs
      else
        firstCloseSplit st cs
    else if st.inString = false then
      if c = lbrace then
        firstCloseSplit { st with brace := st.brace + 1 } cs
      else if c = rbrace then
        if st.brace - 1 = 0 then some cs
        else firstCloseSplit { st with brace := st.brace - 1 } cs
      else
        firstCloseSplit st cs
    else
      firstCloseSplit st cs

/-- The completeness predicate exactly as the claim words it: the
trimmed text begins with `{`, the depth returns to zero at some `}`
(braces inside quoted strings ignored), and after that `}` every
remaining character is whitespace or a semicolon. -/
def specCompleteClaim (s : String) : Bool :=
  let t := jsTrim s.data
  decide (t.head? = some lbrace) &&
    match firstCloseSplit ScanState.init t with
    | some rest => rest.all (fun c => jsWs c || c == semi)
    | none => false

/-- The amended completeness predicate: as the claim, except that the
content after the closing `}` must trim to nothing or to exactly one
semicolon. -/
def specCompleteAmended (s : String) : Bool :=
  let t := jsTrim s.data
  decide (t.head? = some lbrace) &&
    match firstCloseSplit ScanState.init t with
    | some rest => remainOK rest
    | none => false

/-! ### Relating the loop to the pure evolution -/

/-- The condition of the loop's early `return`: an unescaped `}`
outside a string with the counter at 1. -/
def CloseHit (st : ScanState) (c : Char) : Prop :=
  st.escapeNext = false ∧ st.inString = false ∧ c = rbrace ∧ st.brace = 1

instance (st : ScanState) (c : Char) : Decidable (CloseHit st c) := by
  unfold CloseHit; infer_instance

theorem scanStep_of_escape (st : ScanState) (c : Char) (h1 : st.escapeNext = true) :
    scanStep st c = { st with escapeNext := false } := by
  simp [scanStep, h1]

theorem not_closeHit_of_escape (st : ScanState) (c : Char) (h1 : st.escapeNext = true) :
    ¬ CloseHit st c := by
  rintro ⟨ha, -, -, -⟩; rw [h1] at ha; exact absurd ha (by decide)

theorem lbrace_not_bslash : ¬ (lbrace = bslash) := by decide

theorem lbrace_not_quote : ¬ (lbrace = dquote ∨ lbrace = squote) := by decide

theorem rbrace_not_bslash : ¬ (rbrace = bslash) := by decide

theorem rbrace_not_quote : ¬ (rbrace = dquote ∨ rbrace = squote) := by decide

theorem rbrace_not_lbrace : ¬ (rbrace = lbrace) := by decide

/-- One step of `isCompleteCore` on a cons cell. -/
theorem isCompleteCore_cons (st : ScanState) (c : Char) (cs : List Char) :
    isCompleteCore st (c :: cs) =
      if CloseHit st c then remainOK cs
      else isCompleteCore (scanStep st c) cs := by
  by_cases h1 : st.escapeNext = true
  · rw [if_neg (not_closeHit_of_escape st c h1), scanStep_of_escape st c h1]
    simp [isCompleteCore, h1]
  · have h1' : st.escapeNext = false := by simpa using h1
    by_cases h2 : c = bslash
    · rw [if_neg (by rintro ⟨-, -, hc, -⟩; rw [h2] at hc; exact absurd hc (by decide))]
      simp [isCompleteCore, scanStep, h1, h2]
    · by_cases h3 : c = dquote ∨ c = squote
      · rw [if_neg (by rintro ⟨-, -, hc, -⟩; rw [hc] at h3; exact absurd h3 (by decide))]
        by_cases h4 : st.inString = false
        · simp [isCompleteCore, scanStep, h1, h2, h3, h4]
        · by_cases h5 : st.stringChar = some c
          · simp [isCompleteCore, scanStep, h1, h2, h3, h4, h5]
          · simp [isCompleteCore, scanStep, h1, h2, h3, h4, h5]
      · by_cases h6 : st.inString = false
        · by_cases h7 : c = lbrace
          · rw [if_neg (by rintro ⟨-, -, hc, -⟩; rw [h7] at hc; exact absurd hc (by decide))]
            simp [isCompleteCore, scanStep, h1, h2, h3, h6, h7, lbrace_not_bslash, lbrace_not_quote]
          · by_cases h8 : c = rbrace
            · by_cases h9 : st.brace - 1 = 0
              · rw [if_pos ⟨h1', h6, h8, by omega⟩]
                simp [isCompleteCore, h1, h2, h3, h6, h7, h8, h9, rbrace_not_bslash, rbrace_not_quote, rbrace_not_lbrace]
              · rw [if_neg (by rintro ⟨-, -, -, hb⟩; omega)]
                simp [isCompleteCore, scanStep, h1, h2, h3, h6, h7, h8, h9, rbrace_not_bslash, rbrace_not_quote, rbrace_not_lbrace]
            · rw [if_neg (by rintro ⟨-, -, hc, -⟩; exact h8 hc)]
              simp [isCompleteCore, scanStep, h1, h2, h3, h6, h7, h8]
        · rw [if_neg (by rintro ⟨-, hs, -, -⟩; exact h6 hs)]
          simp [isCompleteCore, scanStep, h1, h2, h3, h6]

/-- One step of `firstCloseSplit` on a cons cell. -/
theorem firstCloseSplit_cons (st : ScanState) (c : Char) (cs : List Char) :
    firstCloseSplit st (c :: cs) =
      if CloseHit st c then some cs
      else firstCloseSplit (scanStep st c) cs := by
  by_cases h1 : st.escapeNext = true
  · rw [if_neg (not_closeHit_of_escape st c h1), scanStep_of_escape st c h1]
    simp [firstCloseSplit, h1]
  · have h1' : st.escapeNext = false := by simpa using h1
    by_cases h2 : c = bslash
    · rw [if_neg (by rintro ⟨-, -, hc, -⟩; rw [h2] at hc; exact absurd hc (by decide))]
      simp [firstCloseSplit, scanStep, h1, h2]
    · by_cases h3 : c = dquote ∨ c = squote
      · rw [if_neg (by rintro ⟨-, -, hc, -⟩; rw [hc] at h3; exact absurd h3 (by decide))]
        by_cases h4 : st.inString = false
        · simp [firstCloseSplit, scanStep, h1, h2, h3, h4]
        · by_cases h5 : st.stringChar = some c
          · simp [firstCloseSplit, scanStep, h1, h2, h3, h4, h5]
          · simp [firstCloseSplit, scanStep, h1, h2, h3, h4, h5]
      · by_cases h6 : st.inString = false
        · by_cases h7 : c = lbrace
          · rw [if_neg (by rintro ⟨-, -, hc, -⟩; rw [h7] at hc; exact absurd hc (by decide))]
            simp [firstCloseSplit, scanStep, h1, h2, h3, h6, h7, lbrace_not_bslash, lbrace_not_quote]
          · by_cases h8 : c = rbrace
            · by_cases h9 : st.brace - 1 = 0
              · rw [if_pos ⟨h1', h6, h8, by omega⟩]
                simp [firstCloseSplit, h1, h2, h3, h6, h7, h8, h9, rbrace_not_bslash, rbrace_not_quote, rbrace_not_lbrace]
              · rw [if_neg (by rintro ⟨-, -, -, hb⟩; omega)]
                simp [firstCloseSplit, scanStep, h1, h2, h3, h6, h7, h8, h9, rbrace_not_bslash, rbrace_not_quote, rbrace_not_lbrace]
            · rw [if_neg (by rintro ⟨-, -, hc, -⟩; exact h8 hc)]
              simp [firstCloseSplit, scanStep, h1, h2, h3, h6, h7, h8]
        · rw [if_neg (by rintro ⟨-, hs, -, -⟩; exact h6 hs)]
          simp [firstCloseSplit, scanStep, h1, h2, h3, h6]

/-- The loop of `isCompleteJSON` equals: take the suffix after the
first closing brace that returns the counter to zero and test it with
`remainOK`; when no such brace exists, test whether the final counter
is zero. -/
theorem isCompleteCore_eq (l : List Char) : ∀ st : ScanState,
    isCompleteCore st l =
      match firstCloseSplit st l with
      | some rest => remainOK rest
      | none => decide ((scanFold st l).brace = 0) := by
  induction l with
  | nil =>
    intro st
    simp only [isCompleteCore, firstCloseSplit, scanFold, List.foldl]
    by_cases h : st.brace = 0 <;> simp [h]
  | cons c cs ih =>
    intro st
    rw [isCompleteCore_cons, firstCloseSplit_cons]
    by_cases h : CloseHit st c
    · rw [if_pos h, if_pos h]
    · rw [if_neg h, if_neg h, ih (scanStep st c)]
      rfl

/-- If the counter never returns to zero, it stays at least 1 along
the whole scan (counters only move by steps of one and the step to
zero is the early exit). -/
theorem scanFold_brace_pos (l : List Char) : ∀ st : ScanState,
    1 ≤ st.brace → firstCloseSplit st l = none →
    1 ≤ (scanFold st l).brace := by
  induction l with
  | nil => intro st h _; exact h
  | cons c cs ih =>
    intro st h hnone
    rw [firstCloseSplit_cons] at hnone
    by_cases hc : CloseHit st c
    · rw [if_pos hc] at hnone; exact absurd hnone (by simp)
    · rw [if_neg hc] at hnone
      refine ih (scanStep st c) ?_ hnone
      by_cases h1 : st.escapeNext = true
      · rw [scanStep_of_escape st c h1]; exact h
      · unfold scanStep
        split_ifs <;> simp_all [CloseHit] <;> omega

/-! ### C1 -/

/-- C1 counterexample: on the input `\x7b\x7d;;` the trimmed text
begins with `\x7b`, the brace counter returns to zero at the matching
`\x7d`, and everything after it is semicolons (no non-whitespace,
non-semicolon content) — so the claim demands `true` — yet
`isCompleteJSON` returns `false`, because the source removes at most
one trailing semicolon before testing for emptiness. -/
theorem c1_counterexample_trailing_semicolons :
    specCompleteClaim "\x7b\x7d;;" = true ∧ isCompleteJSON "\x7b\x7d;;" = false :=
  ⟨by decide, by decide⟩

/-- C1 (amended): for every input string, `isCompleteJSON` returns
true iff the trimmed text begins with `\x7b`, the brace-depth counter
(ignoring braces inside single- or double-quoted strings, with
backslash escapes consuming exactly one character) returns to zero at
some `\x7d`, and the content after that `\x7d` trims to nothing or to
exactly one semicolon. -/
theorem c1_isCompleteJSON_characterization (s : String) :
    isCompleteJSON s = specCompleteAmended s := by
  show (decide ((jsTrim s.data).head? = some lbrace) &&
        isCompleteCore ScanState.init (jsTrim s.data))
      = (decide ((jsTrim s.data).head? = some lbrace) &&
        match firstCloseSplit ScanState.init (jsTrim s.data) with
        | some rest => remainOK rest
        | none => false)
  generalize jsTrim s.data = t
  rcases t with _ | ⟨a, t'⟩
  · simp [firstCloseSplit]
  · by_cases ha : a = lbrace
    · subst ha
      rw [isCompleteCore_eq]
      rcases hF : firstCloseSplit ScanState.init (lbrace :: t') with _ | rest
      · have h1 : firstCloseSplit (scanStep ScanState.init lbrace) t' = none := by
          rw [firstCloseSplit_cons,
            if_neg (by rintro ⟨-, -, hc, -⟩; exact rbrace_not_lbrace hc.symm)] at hF
          exact hF
        have h2 : 1 ≤ (scanFold (scanStep ScanState.init lbrace) t').brace :=
          scanFold_brace_pos t' _ (by decide) h1
        have h3 : scanFold ScanState.init (lbrace :: t')
            = scanFold (scanStep ScanState.init lbrace) t' := rfl
        have h4 : ((scanFold ScanState.init (lbrace :: t')).brace = 0) = False := by
          rw [h3]; exact eq_false (by omega)
        simp [hF, h4]
      · simp [hF]
    · simp [ha]

/-! ### C4: balanced literals and their strict prefixes -/

theorem scanStep_brace_lower (st : ScanState) (c : Char) :
    st.brace - 1 ≤ (scanStep st c).brace := by
  unfold scanStep
  split_ifs <;> simp
  all_goals omega

/-- The early-exit condition holds exactly when the counter steps from
1 to 0 (the counter moves only at unescaped braces outside strings). -/
theorem closeHit_iff_drop (st : ScanState) (c : Char) :
    CloseHit st c ↔ (st.brace = 1 ∧ (scanStep st c).brace = 0) := by
  constructor
  · rintro ⟨h1, h2, h3, h4⟩
    subst h3
    refine ⟨h4, ?_⟩
    simp [scanStep, h1, h2, rbrace_not_bslash, rbrace_not_quote, rbrace_not_lbrace, h4]
  · rintro ⟨h1, h2⟩
    by_cases e1 : st.escapeNext = true
    · rw [scanStep_of_escape st c e1] at h2
      simp at h2; omega
    · have e1' : st.escapeNext = false := by simpa using e1
      by_cases e2 : c = bslash
      · exfalso; simp [scanStep, e1, e2] at h2; omega
      · by_cases e3 : c = dquote ∨ c = squote
        · exfalso
          have h3 : (scanStep st c).brace = st.brace := by
            simp only [scanStep, if_neg e1, if_neg e2, if_pos e3]
            split_ifs <;> rfl
          omega
        · by_cases e4 : st.inString = false
          · by_cases e5 : c = lbrace
            · exfalso
              subst e5
              simp [scanStep, e1, e4, lbrace_not_bslash, lbrace_not_quote] at h2
              omega
            · by_cases e6 : c = rbrace
              · exact ⟨e1', e4, e6, h1⟩
              · exfalso; simp [scanStep, e1, e2, e3, e4, e5, e6] at h2; omega
          · exfalso; simp [scanStep, e1, e2, e3, e4] at h2; omega

/-- If no position triggers the early exit, the split is `none`. -/
theorem firstCloseSplit_eq_none_of (l : List Char) : ∀ st : ScanState,
    (∀ n (hn : n < l.length), ¬ CloseHit (scanFold st (l.take n)) (l.get ⟨n, hn⟩)) →
    firstCloseSplit st l = none := by
  induction l with
  | nil => intro st _; rfl
  | cons c cs ih =>
    intro st h
    have h0 : ¬ CloseHit st c := h 0 (by simp)
    rw [firstCloseSplit_cons, if_neg h0]
    refine ih (scanStep st c) (fun n hn => ?_)
    exact h (n+1) (by simpa using Nat.succ_lt_succ hn)

/-- If position `n` triggers the early exit and no earlier position
does, the split returns the suffix after position `n`. -/
theorem firstCloseSplit_eq_some_of (l : List Char) : ∀ (st : ScanState) (n : Nat)
    (hn : n < l.length),
    CloseHit (scanFold st (l.take n)) (l.get ⟨n, hn⟩) →
    (∀ m (hm : m < l.length), m < n → ¬ CloseHit (scanFold st (l.take m)) (l.get ⟨m, hm⟩)) →
    firstCloseSplit st l = some (l.drop (n+1)) := by
  induction l with
  | nil => intro st n hn; exact absurd hn (by simp)
  | cons c cs ih =>
    intro st n hn hC hmin
    cases n with
    | zero =>
      have hC0 : CloseHit st c := hC
      rw [firstCloseSplit_cons, if_pos hC0]
      rfl
    | succ k =>
      have h0 : ¬ CloseHit st c := hmin 0 (by simp) (Nat.succ_pos k)
      rw [firstCloseSplit_cons, if_neg h0]
      refine ih (scanStep st c) k (by simpa using Nat.lt_of_succ_lt_succ hn) hC
        (fun m hm hmk => ?_)
      exact hmin (m+1) (by simpa using Nat.succ_lt_succ hm) (Nat.succ_lt_succ hmk)

theorem scanFold_take_succ (l : List Char) (st : ScanState) (n : Nat) (h : n < l.length) :
    scanFold st (l.take (n+1)) = scanStep (scanFold st (l.take n)) (l.get ⟨n, h⟩) := by
  have h2 : l.take (n+1) = l.take n ++ [l.get ⟨n, h⟩] := by
    rw [List.take_succ, List.getElem?_eq_getElem h]
    simp [List.get_eq_getElem]
  rw [scanFold, scanFold, h2, List.foldl_append]
  rfl

/-- A balanced, string-aware object literal, in the sense of the claim:
a trimmed text beginning with `\x7b` whose brace counter (ignoring
braces inside quoted strings) ends at zero and is nonzero at every
strict non-empty prefix. -/
def BalancedLit (s : String) : Prop :=
  jsTrim s.data = s.data ∧
  s.data.head? = some lbrace ∧
  (scanFold ScanState.init s.data).brace = 0 ∧
  ∀ n, n < s.data.length → 0 < n →
    (scanFold ScanState.init (s.data.take n)).brace ≠ 0

/-- C4: for every balanced, string-aware object literal `s`,
`isComplete(s) = true`, and for every strict non-empty prefix `p` of
`s`, `isComplete(p) = false`. -/
theorem c4_balanced_literal_prefixes (s : String) (h : BalancedLit s) :
    isCompleteJSON s = true ∧
    ∀ n, 0 < n → n < s.data.length →
      isCompleteJSON (String.mk (s.data.take n)) = false := by
  obtain ⟨hTrim, hHead, hEnd, hMid⟩ := h
  obtain ⟨R, hLR⟩ : ∃ R, s.data = lbrace :: R := by
    cases hds : s.data with
    | nil => rw [hds] at hHead; simp at hHead
    | cons a R =>
      rw [hds] at hHead
      simp only [List.head?_cons, Option.some.injEq] at hHead
      exact ⟨R, by rw [hHead]⟩
  have hb1 : (scanFold ScanState.init (s.data.take 1)).brace = 1 := by
    rw [hLR, List.take_succ_cons, List.take_zero]
    decide
  -- the brace counter stays positive on all proper prefixes
  have pos : ∀ n, 1 ≤ n → n < s.data.length →
      1 ≤ (scanFold ScanState.init (s.data.take n)).brace := by
    intro n
    induction n with
    | zero => omega
    | succ k ihk =>
      intro _ hlt
      by_cases hk : k = 0
      · subst hk
        have h01 : (0:Nat) + 1 = 1 := rfl
        rw [h01, hb1]
      · have hklt : k < s.data.length := by omega
        have h1 := ihk (by omega) hklt
        have h2 := scanStep_brace_lower (scanFold ScanState.init (s.data.take k))
          (s.data.get ⟨k, hklt⟩)
        rw [← scanFold_take_succ s.data ScanState.init k hklt] at h2
        have h3 := hMid (k+1) hlt (by omega)
        omega
  have hlen2 : 2 ≤ s.data.length := by
    have h0 : 0 < s.data.length := by rw [hLR]; simp
    by_contra hcon
    have h1 : s.data.length = 1 := by omega
    rw [← List.take_length (l := s.data), h1] at hEnd
    omega
  -- no early exit strictly before the last character
  have noHitEarly : ∀ m (hm : m < s.data.length), m < s.data.length - 1 →
      ¬ CloseHit (scanFold ScanState.init (s.data.take m)) (s.data.get ⟨m, hm⟩) := by
    intro m hm hmlt hC
    rw [closeHit_iff_drop] at hC
    obtain ⟨-, hC2⟩ := hC
    rw [← scanFold_take_succ s.data ScanState.init m hm] at hC2
    exact hMid (m+1) (by omega) (by omega) hC2
  -- the early exit fires exactly at the last character
  have hitLast : CloseHit (scanFold ScanState.init (s.data.take (s.data.length - 1)))
      (s.data.get ⟨s.data.length - 1, by omega⟩) := by
    rw [closeHit_iff_drop]
    have hstep : scanFold ScanState.init (s.data.take (s.data.length - 1 + 1))
        = scanStep (scanFold ScanState.init (s.data.take (s.data.length - 1)))
          (s.data.get ⟨s.data.length - 1, by omega⟩) :=
      scanFold_take_succ s.data ScanState.init (s.data.length - 1) (by omega)
    have htl : s.data.take (s.data.length - 1 + 1) = s.data := by
      have h1 : s.data.length - 1 + 1 = s.data.length := by omega
      rw [h1, List.take_length]
    rw [htl] at hstep
    have hle := scanStep_brace_lower
      (scanFold ScanState.init (s.data.take (s.data.length - 1)))
      (s.data.get ⟨s.data.length - 1, by omega⟩)
    rw [← hstep] at hle
    have hge := pos (s.data.length - 1) (by omega) (by omega)
    refine ⟨by omega, ?_⟩
    rw [← hstep]; exact hEnd
  have hfcs : firstCloseSplit ScanState.init s.data = some [] := by
    have h1 := firstCloseSplit_eq_some_of s.data ScanState.init (s.data.length - 1)
      (by omega) hitLast (fun m hm hmlt => noHitEarly m hm (by omega))
    rw [h1]
    have h2 : s.data.length - 1 + 1 = s.data.length := by omega
    rw [h2, List.drop_length]
  constructor
  · show (decide ((jsTrim s.data).head? = some lbrace) &&
      isCompleteCore ScanState.init (jsTrim s.data)) = true
    rw [hTrim, isCompleteCore_eq, hfcs]
    show (decide (s.data.head? = some lbrace) && remainOK []) = true
    rw [hLR]
    simp [remainOK, jsTrim]
  · intro n hn0 hnlen
    refine Bool.eq_false_iff.mpr ?_
    intro hcontra
    have hcontra' : (decide ((jsTrim (s.data.take n)).head? = some lbrace) &&
        isCompleteCore ScanState.init (jsTrim (s.data.take n))) = true := hcontra
    -- the trimmed prefix is itself a prefix `s.data.take m` with 0 < m ≤ n
    have hdw : (s.data.take n).dropWhile jsWs = s.data.take n := by
      rw [hLR]
      rcases n with _ | nn
      · omega
      · rw [List.take_succ_cons, List.dropWhile_cons]
        rw [if_neg (by decide)]
    have hq : jsTrim (s.data.take n) = (s.data.take n).rdropWhile jsWs := by
      show ((((s.data.take n).dropWhile jsWs).reverse).dropWhile jsWs).reverse = _
      rw [hdw]
      rfl
    have hqp : jsTrim (s.data.take n) <+: s.data.take n := by
      rw [hq]; apply List.rdropWhile_prefix
    have hqL : jsTrim (s.data.take n) <+: s.data := hqp.trans ( List.take_prefix n s.data)
    have hqtake : jsTrim (s.data.take n)
        = s.data.take (jsTrim (s.data.take n)).length :=
      List.prefix_iff_eq_take.mp hqL
    have hmle : (jsTrim (s.data.take n)).length ≤ n := by
      have h1 := hqp.length_le
      have h2 : (s.data.take n).length ≤ n := by simp
      omega
    have hmpos : 0 < (jsTrim (s.data.take n)).length := by
      by_contra hcon
      have hnil : jsTrim (s.data.take n) = [] := by
        cases hq2 : jsTrim (s.data.take n)
        · rfl
        · rw [hq2] at hcon; simp at hcon
      rw [hq] at hnil
      have hall : ∀ x ∈ (s.data.take n).reverse, jsWs x := by
        have h1 : (s.data.take n).reverse.dropWhile jsWs = [] := by
          have h2 := congrArg List.reverse hnil
          simpa [List.rdropWhile] using h2
        exact List.dropWhile_eq_nil_iff.mp h1
      have hmem : lbrace ∈ (s.data.take n).reverse := by
        rw [List.mem_reverse, hLR]
        rcases n with _ | nn
        · omega
        · rw [List.take_succ_cons]; exact List.mem_cons_self _ _
      exact absurd (hall lbrace hmem) (by decide)
    -- the scan of the trimmed prefix never exits early
    have hfcsq : firstCloseSplit ScanState.init (jsTrim (s.data.take n)) = none := by
      apply firstCloseSplit_eq_none_of
      intro k hk
      have hklen : k < s.data.length := by omega
      have htk : (jsTrim (s.data.take n)).take k = s.data.take k := by
        conv_lhs => rw [hqtake]
        rw [List.take_take]
        congr 1
        omega
      have hgk : (jsTrim (s.data.take n)).get ⟨k, hk⟩ = s.data.get ⟨k, hklen⟩ := by
        rw [List.get_of_eq hqtake ⟨k, hk⟩]
        simp only [List.get_eq_getElem]
        exact (List.getElem_take' s.data hklen hk).symm
      rw [htk, hgk]
      exact noHitEarly k hklen (by omega)
    rw [isCompleteCore_eq, hfcsq] at hcontra'
    have hbm : (scanFold ScanState.init (jsTrim (s.data.take n))).brace ≠ 0 := by
      rw [hqtake]
      exact hMid _ (by omega) hmpos
    simp only [Bool.and_eq_true, decide_eq_true_eq] at hcontra'
    exact hbm hcontra'.2

instance (s : String) : Decidable (BalancedLit s) := by
  unfold BalancedLit
  infer_instance

/-- Witness for C4 at the spec's example literal `\x7b"a": "\x7d"\x7d`. -/
theorem c4_balanced_literal_prefixes_witness :
    BalancedLit "\x7b\"a\": \"\x7d\"\x7d" ∧
    (isCompleteJSON "\x7b\"a\": \"\x7d\"\x7d" = true ∧
     ∀ n, 0 < n → n < ("\x7b\"a\": \"\x7d\"\x7d" : String).data.length →
       isCompleteJSON (String.mk (("\x7b\"a\": \"\x7d\"\x7d" : String).data.take n))
         = false) :=
  ⟨by decide, c4_balanced_literal_prefixes _ (by decide)⟩

/-! ## Block extractor (`code.match(/option\s*=\s*\x7b([\s\S]*)\x7d/)`) -/

/-- Match the literal characters `pre` at the head of `l`, returning
the remaining suffix. -/
def dropLit : List Char → List Char → Option (List Char)
  | [], l => some l
  | _ :: _, [] => none
  | p :: ps, c :: cs => if c = p then dropLit ps cs else none

/-- Try to match the regex fragment `option\s*=\s*\x7b` at the head of
the list; returns the suffix after the `\x7b` (the `\s*` are greedy,
which is exact here because whitespace, `=` and `\x7b` are disjoint). -/
def tryOptionAt (l : List Char) : Option (List Char) :=
  match dropLit ("option".data) l with
  | none => none
  | some r1 =>
    match r1.dropWhile jsWs with
    | [] => none
    | c :: r2 =>
      if c = '=' then
        match r2.dropWhile jsWs with
        | [] => none
        | d :: r3 => if d = lbrace then some r3 else none
      else none

/-- The prefix of `l` up to and including the last `\x7d` of `l`. -/
def upToLastClose (l : List Char) : List Char :=
  (l.reverse.dropWhile (fun c => !(c == rbrace))).reverse

/-- Model of `text.match(/option\s*=\s*\x7b([\s\S]*)\x7d/)`, returning
the full matched text (`match[0]`): the engine tries start positions
left to right; at a position the fragment `option\s*=\s*\x7b` must
match and some `\x7d` must occur later (`[\s\S]*` is greedy, so the
match extends to the last `\x7d` of the text), otherwise the engine
moves one position right. -/
def matchOptionCore : List Char → Option (List Char)
  | [] => none
  | c :: cs =>
    match tryOptionAt (c :: cs) with
    | some tail =>
      if tail.contains rbrace then
        some (((c :: cs).take ((c :: cs).length - tail.length)) ++ upToLastClose tail)
      else matchOptionCore cs
    | none => matchOptionCore cs

/-- Both `parseTableData` and `parseChartData` locate the block with
this regex match; `matchOptionAssign` is its string-level wrapper. -/
def matchOptionAssign (s : String) : Option String :=
  (matchOptionCore s.data).map String.mk

/-- The claim's pattern: somewhere in the text, `option`, optional
whitespace, `=`, optional whitespace, `\x7b` — with no requirement of
any closing brace. -/
def hasOptionPattern : List Char → Bool
  | [] => false
  | c :: cs => (tryOptionAt (c :: cs)).isSome || hasOptionPattern cs

/-- The amended pattern: as the claim, but additionally a `\x7d` must
occur somewhere after the `\x7b`. -/
def hasOptionPatternClose : List Char → Bool
  | [] => false
  | c :: cs =>
    (match tryOptionAt (c :: cs) with
     | some tail => tail.contains rbrace
     | none => false) || hasOptionPatternClose cs

theorem matchOptionCore_isSome (l : List Char) :
    (matchOptionCore l).isSome = hasOptionPatternClose l := by
  induction l with
  | nil => rfl
  | cons c cs ih =>
    simp only [matchOptionCore, hasOptionPatternClose]
    cases htry : tryOptionAt (c :: cs) with
    | none => simp [ih]
    | some tail =>
      by_cases hcl : rbrace ∈ tail
      · simp [hcl]
      · simp [hcl, ih]

/-- C3 counterexample: `option = \x7b` contains the claim's pattern
(`option`, whitespace, `=`, whitespace, `\x7b`), so the claim demands
a non-null result, yet the extractor returns null: the regex requires
at least one `\x7d` after the `\x7b`. -/
theorem c3_counterexample_no_close :
    hasOptionPattern ("option = \x7b" : String).data = true ∧
    matchOptionAssign "option = \x7b" = none :=
  ⟨by decide, by decide⟩

/-- C3 (amended): the block extractor returns a non-null result
exactly when the text contains `option`, optional whitespace, `=`,
optional whitespace, `\x7b`, followed somewhere later by at least one
`\x7d` (the match then runs from the first such `option` through the
last `\x7d` of the text, not through the end of the text). -/
theorem c3_match_iff_pattern_with_close (s : String) :
    (matchOptionAssign s).isSome = hasOptionPatternClose s.data := by
  show (Option.map String.mk (matchOptionCore s.data)).isSome = _
  rw [← matchOptionCore_isSome s.data]
  cases matchOptionCore s.data <;> rfl

/-! ## JSON values and a model of the runtime `JSON.parse` -/

/-- JSON values (numbers restricted to integers, which covers every
payload this code base produces or consumes in the claims). -/
inductive Json where
  | null
  | bool (b : Bool)
  | num (n : Int)
  | str (s : String)
  | arr (elems : List Json)
  | obj (fields : List (String × Json))

/-- JSON grammar whitespace (space, tab, LF, CR — narrower than the
JavaScript `\s` class). -/
def jsonWsChar (c : Char) : Bool :=
  c == ' ' || c == '\t' || c == '\n' || c == '\r'

def skipJWs (l : List Char) : List Char :=
  l.dropWhile jsonWsChar

def isDigitCh (c : Char) : Bool :=
  decide ('0' ≤ c) && decide (c ≤ '9')

def hexVal (c : Char) : Option Nat :=
  if '0' ≤ c ∧ c ≤ '9' then some (c.toNat - 48)
  else if 'a' ≤ c ∧ c ≤ 'f' then some (c.toNat - 87)
  else if 'A' ≤ c ∧ c ≤ 'F' then some (c.toNat - 55)
  else none

def digitsToNat (l : List Char) : Nat :=
  l.foldl (fun a c => a * 10 + (c.toNat - 48)) 0

/-- Parse one or more digits as an integer literal; fails when a
fraction or exponent follows, so the model never silently misreads a
non-integer numeral (it fails where `JSON.parse` would succeed, a
documented restriction of the model). -/
def parseDigits (l : List Char) : Option (Nat × List Char) :=
  let ds := l.takeWhile isDigitCh
  let rest := l.drop ds.length
  if ds = [] then none
  else
    match rest with
    | r :: _ => if r = '.' ∨ r = 'e' ∨ r = 'E' then none
                else some (digitsToNat ds, rest)
    | [] => some (digitsToNat ds, rest)

/-- Parse the body of a JSON string after its opening quote; returns
the decoded content and the suffix after the closing quote. -/
def parseJStrBody (fuel : Nat) (l : List Char) : Option (List Char × List Char) :=
  match fuel with
  | 0 => none
  | fuel + 1 =>
    match l with
    | [] => none
    | c :: cs =>
      if c = dquote then some ([], cs)
      else if c = bslash then
        match cs with
        | [] => none
        | e :: cs2 =>
          let esc : Option (Char × List Char) :=
            if e = dquote then some (dquote, cs2)
            else if e = bslash then some (bslash, cs2)
            else if e = '/' then some ('/', cs2)
            else if e = 'b' then some (Char.ofNat 8, cs2)
            else if e = 'f' then some (Char.ofNat 12, cs2)
            else if e = 'n' then some ('\n', cs2)
            else if e = 'r' then some ('\r', cs2)
            else if e = 't' then some ('\t', cs2)
            else if e = 'u' then
              match cs2 with
              | h1 :: h2 :: h3 :: h4 :: cs3 =>
                match hexVal h1, hexVal h2, hexVal h3, hexVal h4 with
                | some v1, some v2, some v3, some v4 =>
                  some (Char.ofNat (((v1 * 16 + v2) * 16 + v3) * 16 + v4), cs3)
                | _, _, _, _ => none
              | _ => none
            else none
          match esc with
          | some (ch, rest) =>
            match parseJStrBody fuel rest with
            | some (content, rest2) => some (ch :: content, rest2)
            | none => none
          | none => none
      else if c.val < 32 then none
      else
        match parseJStrBody fuel cs with
        | some (content, rest2) => some (c :: content, rest2)
        | none => none

mutual

/-- Parse one JSON value (leading whitespace allowed). -/
def parseJVal (fuel : Nat) (l : List Char) : Option (Json × List Char) :=
  match fuel with
  | 0 => none
  | fuel + 1 =>
    match skipJWs l with
    | [] => none
    | c :: cs =>
      if c = dquote then
        match parseJStrBody fuel cs with
        | some (content, rest) => some (.str (String.mk content), rest)
        | none => none
      else if c = lbrace then
        match skipJWs cs with
        | [] => none
        | c2 :: r2 =>
          if c2 = rbrace then some (.obj [], r2)
          else parseJMembers fuel (c2 :: r2) []
      else if c = '[' then
        match skipJWs cs with
        | [] => none
        | c2 :: r2 =>
          if c2 = ']' then some (.arr [], r2)
          else parseJElems fuel (c2 :: r2) []
      else if c = 't' then
        match dropLit "rue".data cs with
        | some rest => some (.bool true, rest)
        | none => none
      else if c = 'f' then
        match dropLit "alse".data cs with
        | some rest => some (.bool false, rest)
        | none => none
      else if c = 'n' then
        match dropLit "ull".data cs with
        | some rest => some (.null, rest)
        | none => none
      else if c = '-' then
        match parseDigits cs with
        | some (n, rest) => some (.num (-(n : Int)), rest)
        | none => none
      else if isDigitCh c then
        match parseDigits (c :: cs) with
        | some (n, rest) => some (.num (n : Int), rest)
        | none => none
      else none

/-- Parse the members of a JSON object, positioned at a key. -/
def parseJMembers (fuel : Nat) (l : List Char) (acc : List (String × Json)) :
    Option (Json × List Char) :=
  match fuel with
  | 0 => none
  | fuel + 1 =>
    match l with
    | [] => none
    | c :: cs =>
      if c = dquote then
        match parseJStrBody fuel cs with
        | some (key, r1) =>
          match skipJWs r1 with
          | [] => none
          | c2 :: r2 =>
            if c2 = ':' then
              match parseJVal fuel r2 with
              | some (v, r3) =>
                match skipJWs r3 with
                | [] => none
                | c3 :: r4 =>
                  if c3 = ',' then
                    parseJMembers fuel (skipJWs r4) (acc ++ [(String.mk key, v)])
                  else if c3 = rbrace then
                    some (.obj (acc ++ [(String.mk key, v)]), r4)
                  else none
              | none => none
            else none
        | none => none
      else none

/-- Parse the elements of a JSON array, positioned at an element. -/
def parseJElems (fuel : Nat) (l : List Char) (acc : List Json) :
    Option (Json × List Char) :=
  match fuel with
  | 0 => none
  | fuel + 1 =>
    match parseJVal fuel l with
    | some (v, r1) =>
      match skipJWs r1 with
      | [] => none
      | c :: r2 =>
        if c = ',' then parseJElems fuel r2 (acc ++ [v])
        else if c = ']' then some (.arr (acc ++ [v]), r2)
        else none
    | none => none

end

/-- Model of the JavaScript `JSON.parse` builtin on the standard JSON
grammar (integers only; the whole input must be consumed up to
trailing whitespace). -/
def jsonParse (s : String) : Option Json :=
  match parseJVal (2 * s.data.length + 4) s.data with
  | some (j, rest) => if skipJWs rest = [] then some j else none
  | none => none

/-! ## JavaScript value semantics on JSON values -/

/-- Property access `v[k]` (undefined on non-objects; the last
duplicate key wins, as in objects built by `JSON.parse`). -/
def getField : Json → String → Option Json
  | .obj fs, k => (fs.filterMap (fun p => if p.1 = k then some p.2 else none)).getLast?
  | _, _ => none

/-- Index access `v[0]`: arrays index elements, strings index
characters, objects look up the key `"0"`; other values have no index
properties. -/
def getIndexZero : Json → Option Json
  | .arr xs => xs.head?
  | .str s =>
    match s.data with
    | [] => none
    | c :: _ => some (.str (String.mk [c]))
  | .obj fs => (fs.filterMap (fun p => if p.1 = "0" then some p.2 else none)).getLast?
  | _ => none

/-- JavaScript truthiness of a JSON value. -/
def truthy : Json → Bool
  | .null => false
  | .bool b => b
  | .num n => decide (n ≠ 0)
  | .str s => decide (s ≠ "")
  | .arr _ => true
  | .obj _ => true

/-- Truthiness of a possibly-undefined value. -/
def truthyO : Option Json → Bool
  | none => false
  | some j => truthy j

/-- Model of `a || b` on a possibly-undefined JavaScript value. -/
def jsOr (a : Option Json) (b : Json) : Json :=
  match a with
  | some v => if truthy v then v else b
  | none => b

/-- Strict equality `v === 'lit'` of a value with a string literal. -/
def isStr : Json → String → Bool
  | .str s, t => decide (s = t)
  | _, _ => false

/-- Strict equality with a string literal, on a possibly-undefined
value. -/
def isStrO : Option Json → String → Bool
  | some v, t => isStr v t
  | none, _ => false

mutual

/-- Model of JavaScript `String(v)` coercion: exact on primitives;
arrays join their elements with commas and objects print as
`[object Object]` (best effort on composites — the code under study
only coerces strings). -/
def jsToString : Json → String
  | .null => "null"
  | .bool true => "true"
  | .bool false => "false"
  | .num n => toString n
  | .str s => s
  | .arr xs => String.intercalate "," (jsToStringList xs)
  | .obj _ => "[object Object]"

def jsToStringList : List Json → List String
  | [] => []
  | x :: xs => jsToString x :: jsToStringList xs

end

/-! ## Loose-literal normalizer (`parseTableOption` / `parseChartOption`) -/

/-- Source `str.replace(/^option\s*=\s*/, '')`: strip a leading `option`,
optional whitespace, `=`, optional whitespace (greedy `\s*` is exact
because whitespace and `=` are disjoint). -/
def stripOptionHead (l : List Char) : List Char :=
  match dropLit "option".data l with
  | none => l
  | some r1 =>
    match r1.dropWhile jsWs with
    | [] => l
    | c :: r2 => if c = '=' then r2.dropWhile jsWs else l

/-- Source `str.replace(/;\s*$/, '')`: remove one trailing semicolon together
with the whitespace after it, when the semicolon is followed only by
whitespace. -/
def stripTrailingSemi (l : List Char) : List Char :=
  match l.reverse.dropWhile jsWs with
  | [] => l
  | c :: r => if c = semi then r.reverse else l

def isIdentStart (c : Char) : Bool :=
  (decide ('a' ≤ c) && decide (c ≤ 'z')) ||
  (decide ('A' ≤ c) && decide (c ≤ 'Z')) || c == '_' || c == '$'

def isIdentChar (c : Char) : Bool :=
  isIdentStart c || isDigitCh c

/-- Regex word character (`\w`), for `\b` boundaries. -/
def isWordChar (c : Char) : Bool :=
  (decide ('a' ≤ c) && decide (c ≤ 'z')) ||
  (decide ('A' ≤ c) && decide (c ≤ 'Z')) || isDigitCh c || c == '_'

/-- A `\b` boundary against the character before the match. -/
def boundaryOk : Option Char → Bool
  | none => true
  | some p => !isWordChar p

/-- One pass of `str.replace(/\bword\b/g, repl)`: scan left to right,
replacing each non-overlapping occurrence of `w` delimited by word
boundaries; scanning resumes after a match. `prev` is the character
of the original text just before the current position. -/
def replaceWordGo (w r : List Char) : Nat → Option Char → List Char → List Char
  | 0, _, l => l
  | fuel + 1, prev, l =>
    match l with
    | [] => []
    | c :: cs =>
      match dropLit w l with
      | some rest =>
        if boundaryOk prev &&
           (match rest with
            | [] => true
            | d :: _ => !isWordChar d) then
          r ++ replaceWordGo w r fuel w.getLast? rest
        else c :: replaceWordGo w r fuel (some c) cs
      | none => c :: replaceWordGo w r fuel (some c) cs

def replaceWordAll (w r l : List Char) : List Char :=
  replaceWordGo w r (l.length + 1) none l

/-- Source `str.replace(/,(\s*[\x7d\]])/g, '$1')`: drop each comma directly
followed (up to whitespace) by a closing brace or bracket; scanning
resumes after the consumed `[\x7d\]]`. -/
def removeTrailingCommas : Nat → List Char → List Char
  | 0, l => l
  | _ + 1, [] => []
  | fuel + 1, c :: cs =>
    if c = ',' then
      let ws := cs.takeWhile jsWs
      match cs.drop ws.length with
      | d :: rest2 =>
        if d = rbrace ∨ d = ']' then
          ws ++ [d] ++ removeTrailingCommas fuel rest2
        else c :: removeTrailingCommas fuel cs
      | [] => c :: removeTrailingCommas fuel cs
    else c :: removeTrailingCommas fuel cs

/-- Source `str.replace(/'/g, '"')`. -/
def squoteToDquote (l : List Char) : List Char :=
  l.map (fun c => if c = squote then dquote else c)

/-- An identifier (`[a-zA-Z_$][a-zA-Z0-9_$]*`) at the head of the
list, with the suffix after it. -/
def parseIdent (l : List Char) : Option (List Char × List Char) :=
  match l with
  | [] => none
  | c :: cs =>
    if isIdentStart c then
      some (c :: cs.takeWhile isIdentChar, cs.drop (cs.takeWhile isIdentChar).length)
    else none

/-- Source `str.replace(/([\x7b,]\s*|^\s*)([a-zA-Z_$][a-zA-Z0-9_$]*)\s*:/gm, '$1"$2":')`:
quote unquoted keys. At each position the engine first tries the
`[\x7b,]\s*` alternative, then (at line starts, `m` flag) `^\s*`;
then an identifier, optional whitespace, and `:`. The replacement
keeps group 1, wraps the identifier in quotes and drops the
whitespace before the colon; scanning resumes after the colon.
`lineStart` records whether the current position follows a newline
(or is the start of the text). -/
def quoteKeysGo : Nat → Bool → List Char → List Char
  | 0, _, l => l
  | _ + 1, _, [] => []
  | fuel + 1, lineStart, c :: cs =>
    if c = lbrace ∨ c = ',' then
      let ws := cs.takeWhile jsWs
      match parseIdent (cs.drop ws.length) with
      | some (id, r2) =>
        match r2.drop (r2.takeWhile jsWs).length with
        | d :: r4 =>
          if d = ':' then
            c :: ws ++ [dquote] ++ id ++ [dquote, ':'] ++ quoteKeysGo fuel false r4
          else c :: quoteKeysGo fuel (decide (c = '\n')) cs
        | [] => c :: quoteKeysGo fuel (decide (c = '\n')) cs
      | none => c :: quoteKeysGo fuel (decide (c = '\n')) cs
    else if lineStart then
      let ws := (c :: cs).takeWhile jsWs
      match parseIdent ((c :: cs).drop ws.length) with
      | some (id, r2) =>
        match r2.drop (r2.takeWhile jsWs).length with
        | d :: r4 =>
          if d = ':' then
            ws ++ [dquote] ++ id ++ [dquote, ':'] ++ quoteKeysGo fuel false r4
          else c :: quoteKeysGo fuel (decide (c = '\n')) cs
        | [] => c :: quoteKeysGo fuel (decide (c = '\n')) cs
      | none => c :: quoteKeysGo fuel (decide (c = '\n')) cs
    else c :: quoteKeysGo fuel (decide (c = '\n')) cs

def quoteKeys (l : List Char) : List Char :=
  quoteKeysGo (l.length + 1) true l

/-- Source `parseTableOption` of the table component (textually identical to
`parseChartOption` in CChart.vue): strip the `option =` prefix and a
trailing semicolon, require completeness, rewrite `None/True/False`,
remove trailing commas, convert quotes, quote bare keys, then
strict-JSON parse. The `try/catch` around the body corresponds to the
`none` results of the model. -/
def parseTableOption (s : String) : Option Json :=
  let l0 := stripTrailingSemi (stripOptionHead s.data)
  if isCompleteJSON (String.mk l0) = false then none
  else
    let l1 := replaceWordAll "None".data "null".data l0
    let l2 := replaceWordAll "True".data "true".data l1
    let l3 := replaceWordAll "False".data "false".data l2
    let l4 := removeTrailingCommas (l3.length + 1) l3
    let l5 := squoteToDquote l4
    let l6 := quoteKeys l5
    jsonParse (String.mk l6)

/-- Source `parseChartOption` of CChart.vue, whose body is identical to
`parseTableOption`. -/
def parseChartOption (s : String) : Option Json :=
  parseTableOption s

/-! ## `parseChartData` and `parseTableData` -/

/-- Source `parseChartData` of CChart.vue: regex-match the `option = ...`
block, normalize it, and return it when `config && config.type` is
truthy; null otherwise. -/
def parseChartData (code : String) : Option Json :=
  match matchOptionAssign code with
  | some fullOptionStr =>
    match parseChartOption fullOptionStr with
    | some config =>
      if truthyO (getField config "type") then some config else none
    | none => none
  | none => none

/-- The option-configuration path of `parseTableData`: the matched
block normalizes to a config with truthy `columns` and `data`. -/
def tableConfigPath (code : String) : Option Json :=
  match matchOptionAssign code with
  | some fullOptionStr =>
    match parseTableOption fullOptionStr with
    | some config =>
      if truthyO (getField config "columns") && truthyO (getField config "data")
      then some config else none
    | none => none
  | none => none

/-- Model of `split` on a single character, keeping empty pieces (JavaScript
`String.prototype.split` semantics). -/
def splitOnChar (c : Char) : List Char → List (List Char)
  | [] => [[]]
  | d :: ds =>
    if d = c then [] :: splitOnChar c ds
    else
      match splitOnChar c ds with
      | g :: gs => (d :: g) :: gs
      | [] => [[d]]

/-- Source `code.trim().split('\n').filter(line => line.trim())`. -/
def mdLines (code : String) : List (List Char) :=
  (splitOnChar '\n' (jsTrim code.data)).filter (fun line => decide (jsTrim line ≠ []))

/-- Source `line.split('|').map(x => x.trim()).filter(x => x !== '')` (the
header variant `h && h !== ''` is the same nonemptiness test). -/
def splitPipeCells (line : List Char) : List String :=
  ((splitOnChar '|' line).map (fun cell => String.mk (jsTrim cell))).filter
    (fun h => decide (h ≠ ""))

/-- One data row of the Markdown fallback: cells assigned to headers
positionally, missing cells becoming empty strings
(`values[index] || ''`). -/
def mdRow (headers : List String) (line : List Char) : Json :=
  let values := splitPipeCells line
  .obj (headers.enum.map (fun p => (p.2, Json.str ((values.get? p.1).getD ""))))

/-- The data rows of the Markdown fallback: every line after the
header and the skipped separator line, mapped through `mdRow` with
the headers of the first line. -/
def mdRowsOf (code : String) : List Json :=
  ((mdLines code).drop 2).map (mdRow (splitPipeCells (((mdLines code).get? 0).getD [])))

/-- Source `parseTableData` of the table component: the option-config path,
then the legacy Markdown-pipe-table fallback (header line split on
`|`, second line skipped as separator, remaining lines as rows); null
when neither produces data. -/
def parseTableData (code : String) : Option Json :=
  match tableConfigPath code with
  | some config => some config
  | none =>
    if (mdLines code).length < 2 then none
    else if (((mdLines code).get? 0).getD []).contains '|' then
      if (mdRowsOf code).length > 0 then some (.arr (mdRowsOf code)) else none
    else none

/-! ### C7: concrete round trip through extractor and normalizer -/

/-- A single-quote string, for writing the loose literals of the
claims. -/
def sqS : String := String.mk [squote]

/-- The block of the round-trip claim:
`option = \x7bcolumns:[\x7blabel:'Name',prop:'name'\x7d], data:[\x7bname:'A'\x7d]\x7d`. -/
def c7_block : String :=
  "option = \x7bcolumns:[\x7blabel:" ++ sqS ++ "Name" ++ sqS ++ ",prop:" ++ sqS ++
  "name" ++ sqS ++ "\x7d], data:[\x7bname:" ++ sqS ++ "A" ++ sqS ++ "\x7d]\x7d"

/-- The strict-JSON object the claim expects. -/
def c7_expected : Json :=
  .obj [("columns", .arr [.obj [("label", .str "Name"), ("prop", .str "name")]]),
        ("data", .arr [.obj [("name", .str "A")]])]

/-- C7: applying the block extractor and then the loose-literal
normalizer to the complete, well-formed block
`option = \x7bcolumns:[\x7blabel:'Name',prop:'name'\x7d], data:[\x7bname:'A'\x7d]\x7d`
yields exactly
`\x7bcolumns:[\x7blabel:"Name",prop:"name"\x7d], data:[\x7bname:"A"\x7d]\x7d`. -/
theorem c7_round_trip :
    (matchOptionAssign c7_block).bind parseTableOption = some c7_expected := rfl

/-! ### C9: the chart parser requires only `type` -/

/-- The chart-claim counterexample input: `option = \x7btype:'line'\x7d`,
a complete, well-formed option assignment with no `data` field. -/
def c9_input : String :=
  "option = \x7btype:" ++ sqS ++ "line" ++ sqS ++ "\x7d"

/-- C9 counterexample: on a complete, well-formed option assignment
lacking `data`, the claim demands a null result, yet `parseChartData`
returns the configuration — the code checks only `config.type`, never
`config.data`. -/
theorem c9_counterexample_data_not_required :
    parseChartData c9_input = some (.obj [("type", .str "line")]) ∧
    getField (.obj [("type", Json.str "line")]) "data" = none :=
  ⟨rfl, rfl⟩

/-- C9 (amended): the parsed chart configuration is non-null only if
the normalized option object has a truthy `type` field; a `data`
field is not required. -/
theorem c9_chart_requires_type_only (code : String) (cfg : Json)
    (h : parseChartData code = some cfg) :
    truthyO (getField cfg "type") = true := by
  unfold parseChartData at h
  rcases hm : matchOptionAssign code with _ | fos
  · rw [hm] at h
    have h2 : (none : Option Json) = some cfg := h
    simp at h2
  · rw [hm] at h
    have h2 : (match parseChartOption fos with
      | some config =>
        if truthyO (getField config "type") then some config else none
      | none => none) = some cfg := h
    rcases hp : parseChartOption fos with _ | config
    · rw [hp] at h2
      have h3 : (none : Option Json) = some cfg := h2
      simp at h3
    · rw [hp] at h2
      have h3 : (if truthyO (getField config "type") = true
          then some config else none) = some cfg := h2
      by_cases ht : truthyO (getField config "type") = true
      · rw [if_pos ht] at h3
        rw [← Option.some.inj h3]
        exact ht
      · rw [if_neg ht] at h3
        exact absurd h3 (by simp)

/-- Witness for C9 at `option = \x7btype:'line'\x7d`. -/
theorem c9_chart_requires_type_only_witness :
    parseChartData c9_input = some (.obj [("type", Json.str "line")]) ∧
    truthyO (getField (Json.obj [("type", Json.str "line")]) "type") = true :=
  ⟨rfl, c9_chart_requires_type_only c9_input _ rfl⟩

/-! ### C10: the Markdown pipe-table fallback -/

/-- C10 counterexample: `a|b` over `-|-` has exactly two non-blank
lines and a `|` in the first, so the claim demands an array of rows
(there are no data lines, so an empty one); the code instead returns
null, because it requires at least one data row. -/
theorem c10_counterexample_two_lines :
    (mdLines "a|b\n-|-").length = 2 ∧
    (((mdLines "a|b\n-|-").get? 0).getD []).contains '|' = true ∧
    tableConfigPath "a|b\n-|-" = none ∧
    parseTableData "a|b\n-|-" = none :=
  ⟨rfl, rfl, rfl, rfl⟩

/-- C10 (amended): when the option-configuration path fails, the
trimmed text has at least three non-blank lines, and the first line
contains `|`, the table parser returns the array of row objects built
by splitting the first line on `|` into headers, skipping the second
line, and mapping each subsequent line positionally onto the headers
(missing cells becoming empty strings). With only a header and a
separator line it returns null instead. -/
theorem c10_markdown_fallback (code : String)
    (hconf : tableConfigPath code = none)
    (hlen : 3 ≤ (mdLines code).length)
    (hpipe : (((mdLines code).get? 0).getD []).contains '|' = true) :
    parseTableData code = some (.arr (mdRowsOf code)) := by
  unfold parseTableData
  rw [hconf]
  show (if (mdLines code).length < 2 then none
        else if (((mdLines code).get? 0).getD []).contains '|' then
          if (mdRowsOf code).length > 0 then some (Json.arr (mdRowsOf code)) else none
        else none) = _
  rw [if_neg (show ¬ (mdLines code).length < 2 by omega), if_pos hpipe,
    if_pos (show (mdRowsOf code).length > 0 by
      unfold mdRowsOf
      rw [List.length_map, List.length_drop]
      omega)]

/-- Witness for C10 at a three-line pipe table. -/
theorem c10_markdown_fallback_witness :
    tableConfigPath "Name|Age\n---|---\nA|30" = none ∧
    3 ≤ (mdLines "Name|Age\n---|---\nA|30").length ∧
    (((mdLines "Name|Age\n---|---\nA|30").get? 0).getD []).contains '|' = true ∧
    parseTableData "Name|Age\n---|---\nA|30"
      = some (.arr (mdRowsOf "Name|Age\n---|---\nA|30")) :=
  ⟨rfl, by decide, rfl,
    c10_markdown_fallback "Name|Age\n---|---\nA|30" rfl (by decide) rfl⟩

/-! ## Stream chunk processing

Two chunk processors exist in the sources: `callApiSSE` in
`Chatbot.vue` (fields `content`, `thinkingStatus`, `isStreaming`; a
legacy-field fallback branch, no `suggestions` branch) and
`sendMessage` in the conversation view (additionally `statusContent`
and a `suggestions` branch, no legacy fallback). Both hold a local
`contentBuffer` accumulator alongside the in-flight message. -/

/-- The four-value display state (`ThinkingStatus` in the sources);
`end` is spelled `end_`. -/
inductive ThinkingStatus where
  | start
  | thinking
  | end_
  | error
deriving DecidableEq

/-- The status-type mapping shared by both processors:
`idle → start, working → thinking, error → error, success → end`,
anything else leaving the initial `thinking`. -/
def mapStatusType (v : Json) : ThinkingStatus :=
  if isStr v "idle" then .start
  else if isStr v "working" then .thinking
  else if isStr v "error" then .error
  else if isStr v "success" then .end_
  else .thinking

/-- In-flight assistant message of `sendMessage` (conversation view). -/
structure MsgSM where
  content : String
  statusContent : Option String
  thinkingStatus : ThinkingStatus
  isStreaming : Bool
  suggestions : Option Json

/-- Processor state of `sendMessage`: the accumulator and the message. -/
structure StreamStSM where
  contentBuffer : String
  msg : MsgSM

/-- The freshly pushed assistant message with an empty buffer. -/
def initSM : StreamStSM :=
  { contentBuffer := ""
    msg := { content := "", statusContent := none, thinkingStatus := .start,
             isStreaming := true, suggestions := none } }

/-- The JSON branch of `sendMessage`'s chunk loop, after `JSON.parse`
succeeded (the message-content field stores the JavaScript string
coercion of the assigned value). -/
def handleJsonSM (st : StreamStSM) (j : Json) : StreamStSM :=
  if isStrO (getField j "type") "explanation" && truthyO (getField j "content") then
    let buf := st.contentBuffer ++ jsToString ((getField j "content").getD .null)
    { contentBuffer := buf
      msg := { st.msg with
        content := buf
        thinkingStatus := if st.msg.thinkingStatus = .start then .thinking
                          else st.msg.thinkingStatus } }
  else if isStrO (getField j "type") "status" then
    let statusType := jsOr ((getField j "status").bind (fun s => getField s "type"))
      (.str "working")
    let statusContent := jsOr ((getField j "status").bind (fun s => getField s "content"))
      (jsOr (getField j "content") (.str "正在處理中..."))
    { st with msg := { st.msg with
        content := jsToString statusContent
        statusContent := some (jsToString statusContent)
        thinkingStatus := mapStatusType statusType } }
  else if isStrO (getField j "type") "error" then
    let errorContent := jsToString (jsOr (getField j "error") (.str "發生錯誤"))
    { st with msg := { st.msg with
        content := errorContent
        statusContent := some errorContent
        thinkingStatus := .error } }
  else if isStrO (getField j "type") "suggestions" then
    if truthyO (getField j "suggestions") then
      { st with msg := { st.msg with suggestions := getField j "suggestions" } }
    else st
  else if isStrO (getField j "type") "done" then
    { st with msg := { st.msg with thinkingStatus := .end_, isStreaming := false } }
  else st

/-- One chunk of `sendMessage`'s loop: the `[DONE]` sentinel first
(trimmed), then `JSON.parse` with the raw-text fallback on failure
(which appends and advances `start → thinking`). -/
def applyChunkSM (st : StreamStSM) (chunk : String) : StreamStSM :=
  if jsTrimStr chunk = "[DONE]" then
    { st with msg := { st.msg with
        content := if st.contentBuffer = "" then "查詢完成" else st.contentBuffer
        thinkingStatus := .end_
        isStreaming := false } }
  else
    match jsonParse chunk with
    | some j => handleJsonSM st j
    | none =>
      if chunk = "" then st
      else
        let buf := st.contentBuffer ++ chunk
        { contentBuffer := buf
          msg := { st.msg with
            content := buf
            thinkingStatus := if st.msg.thinkingStatus = .start then .thinking
                              else st.msg.thinkingStatus } }

/-- In-flight assistant message of `callApiSSE` (Chatbot.vue). -/
structure MsgCB where
  content : String
  thinkingStatus : ThinkingStatus
  isStreaming : Bool
deriving DecidableEq

/-- Processor state of `callApiSSE`. -/
structure StreamStCB where
  contentBuffer : String
  msg : MsgCB
deriving DecidableEq

/-- The freshly pushed assistant message with an empty buffer. -/
def initCB : StreamStCB :=
  { contentBuffer := ""
    msg := { content := "", thinkingStatus := .start, isStreaming := true } }

/-- The legacy-field fallback of `callApiSSE`: the first truthy of
`choices[0]?.delta?.content` (guarded by `json.choices`), `content`
(only when `type` is absent or falsy), `delta?.content`, `text`,
`message`, `reply`; undefined when none is truthy. -/
def legacyContent (j : Json) : Option Json :=
  if truthyO (getField j "choices") &&
      truthyO ((((getField j "choices").bind getIndexZero).bind
        (fun d => getField d "delta")).bind (fun d => getField d "content")) then
    (((getField j "choices").bind getIndexZero).bind
      (fun d => getField d "delta")).bind (fun d => getField d "content")
  else if truthyO (getField j "content") && !truthyO (getField j "type") then
    getField j "content"
  else if truthyO ((getField j "delta").bind (fun d => getField d "content")) then
    (getField j "delta").bind (fun d => getField d "content")
  else if truthyO (getField j "text") then getField j "text"
  else if truthyO (getField j "message") then getField j "message"
  else if truthyO (getField j "reply") then getField j "reply"
  else none

/-- Append a content delta: extend the buffer, copy it into the
message, and advance `start → thinking` on first content. -/
def appendDeltaCB (st : StreamStCB) (text : String) : StreamStCB :=
  let buf := st.contentBuffer ++ text
  { contentBuffer := buf
    msg := { st.msg with
      content := buf
      thinkingStatus := if st.msg.thinkingStatus = .start then .thinking
                        else st.msg.thinkingStatus } }

/-- The JSON branch of `callApiSSE`'s chunk loop. -/
def handleJsonCB (st : StreamStCB) (j : Json) : StreamStCB :=
  if isStrO (getField j "type") "explanation" && truthyO (getField j "content") then
    appendDeltaCB st (jsToString ((getField j "content").getD .null))
  else if isStrO (getField j "type") "status" then
    let statusType := jsOr ((getField j "status").bind (fun s => getField s "type"))
      (.str "working")
    let statusContent := jsOr ((getField j "status").bind (fun s => getField s "content"))
      (jsOr (getField j "content") (.str "正在處理中..."))
    { st with msg := { st.msg with
        content := jsToString statusContent
        thinkingStatus := mapStatusType statusType } }
  else if isStrO (getField j "type") "error" then
    { st with msg := { st.msg with
        content := jsToString (jsOr (getField j "error") (.str "發生錯誤"))
        thinkingStatus := .error } }
  else if isStrO (getField j "type") "done" then
    { st with msg := { st.msg with thinkingStatus := .end_, isStreaming := false } }
  else
    match legacyContent j with
    | some v => appendDeltaCB st (jsToString v)
    | none => st

/-- One chunk of `callApiSSE`'s loop: the `[DONE]` sentinel first
(trimmed), then `JSON.parse` with the raw-text fallback on failure
(which appends without touching the display state). -/
def applyChunkCB (st : StreamStCB) (chunk : String) : StreamStCB :=
  if jsTrimStr chunk = "[DONE]" then
    { st with msg := { st.msg with
        content := if st.contentBuffer = "" then "查詢完成" else st.contentBuffer
        thinkingStatus := .end_
        isStreaming := false } }
  else
    match jsonParse chunk with
    | some j => handleJsonCB st j
    | none =>
      if chunk = "" then st
      else
        let buf := st.contentBuffer ++ chunk
        { contentBuffer := buf, msg := { st.msg with content := buf } }

/-- Fold a list of chunks through `callApiSSE`'s loop. -/
def applyChunksCB (st : StreamStCB) (chunks : List String) : StreamStCB :=
  chunks.foldl applyChunkCB st

/-- If a possibly-undefined value strictly equals one string literal,
it strictly equals no other. -/
theorem isStrO_ne (v : Option Json) (a b : String) (hab : a ≠ b)
    (h : isStrO v a = true) : isStrO v b = false := by
  rcases v with _ | w
  · rfl
  · cases w with
    | str s =>
      simp only [isStrO, isStr, decide_eq_true_eq] at h
      subst h
      simp [isStrO, isStr, hab]
    | null => rfl
    | bool c => rfl
    | num n => rfl
    | arr l => rfl
    | obj f => rfl

/-! ### C2: terminality of `error`/`end` under further events -/

/-- An `error`-typed chunk. -/
def c2_errChunk : String := "\x7b\"type\":\"error\",\"error\":\"boom\"\x7d"

/-- A `status`-typed chunk whose nested status type is `idle`. -/
def c2_idleChunk : String :=
  "\x7b\"type\":\"status\",\"status\":\x7b\"type\":\"idle\"\x7d\x7d"

/-- C2 (violated by the code): after the error chunk the display
state is `error`, yet a subsequent `status`/`idle` chunk resets it to
`start` — the reducer does not enforce terminal monotonicity for
status events, exactly the gap the specification flags as a required
fix. -/
theorem c2_monotonicity_violation :
    (applyChunkSM initSM c2_errChunk).msg.thinkingStatus = .error ∧
    (applyChunkSM (applyChunkSM initSM c2_errChunk) c2_idleChunk).msg.thinkingStatus
      = .start :=
  ⟨rfl, rfl⟩

/-! ### C5: the `status` branch -/

/-- The status text exactly as the code computes it:
`status.content`, else the top-level `content`, else the generic
processing text. -/
def statusTextSpec (j : Json) : Json :=
  jsOr ((getField j "status").bind (fun s => getField s "content"))
    (jsOr (getField j "content") (.str "正在處理中..."))

/-- The mapped display state: nested `status.type` defaulting to
`working`, sent through `idle → start, working → thinking,
error → error, success → end`. -/
def statusMapSpec (j : Json) : ThinkingStatus :=
  mapStatusType
    (jsOr ((getField j "status").bind (fun s => getField s "type")) (.str "working"))

/-- C5 counterexample: in the payload
`\x7b"type":"status","content":"X","status":\x7b"type":"working"\x7d\x7d`
the nested `status.content` is absent, so the claim demands the
generic processing text; the code instead falls back to the top-level
`content` field and stores `"X"`. -/
theorem c5_counterexample_toplevel_content_fallback :
    (applyChunkSM initSM
      "\x7b\"type\":\"status\",\"content\":\"X\",\"status\":\x7b\"type\":\"working\"\x7d\x7d").msg.content
      = "X" ∧
    "X" ≠ "正在處理中..." :=
  ⟨rfl, by decide⟩

/-- C5 (amended): for every parsed payload whose `type` is `status`,
the reducer replaces (not appends) the message content and statusText
with the status text — nested `status.content`, defaulting first to
the top-level `content` field and then to the generic processing
text — and sets the display state to the mapped nested `status.type`
(default `working`; `idle → start, working → thinking, error → error,
success → end`). -/
theorem c5_status_update (st : StreamStSM) (j : Json)
    (htype : isStrO (getField j "type") "status" = true) :
    handleJsonSM st j =
      { st with msg := { st.msg with
          content := jsToString (statusTextSpec j)
          statusContent := some (jsToString (statusTextSpec j))
          thinkingStatus := statusMapSpec j } } := by
  have hexp := isStrO_ne (getField j "type") "status" "explanation" (by decide) htype
  unfold handleJsonSM
  rw [if_neg (by rw [hexp]; simp), if_pos htype]
  rfl

/-- The classifier-scenario payload of the claim. -/
def c5_done_chunk : String :=
  "\x7b\"type\":\"status\",\"status\":\x7b\"type\":\"success\",\"content\":\"Done\"\x7d\x7d"

/-- The parse of `c5_done_chunk`. -/
def c5_done_json : Json :=
  .obj [("type", .str "status"),
        ("status", .obj [("type", .str "success"), ("content", .str "Done")])]

/-- Witness for C5 at the claim's `success`/`Done` payload. -/
theorem c5_status_update_witness :
    isStrO (getField c5_done_json "type") "status" = true ∧
    (applyChunkSM initSM c5_done_chunk).msg.thinkingStatus = .end_ ∧
    (applyChunkSM initSM c5_done_chunk).msg.content = "Done" := by
  have hp : applyChunkSM initSM c5_done_chunk = handleJsonSM initSM c5_done_json := rfl
  refine ⟨rfl, ?_, ?_⟩
  · rw [hp, c5_status_update initSM c5_done_json rfl]
    rfl
  · rw [hp, c5_status_update initSM c5_done_json rfl]
    rfl

/-! ### C6: content deltas followed by the terminal sentinel -/

/-- First explanation delta of the scenario. -/
def c6_chunk1 : String := "\x7b\"type\":\"explanation\",\"content\":\"Hel\"\x7d"

/-- Second explanation delta of the scenario. -/
def c6_chunk2 : String := "\x7b\"type\":\"explanation\",\"content\":\"lo\"\x7d"

/-- C6: after the deltas `Hel`, `lo` and a whitespace-padded `[DONE]`
chunk the message reads `Hello`, is in display state `end` and no
longer streaming; and whenever the sentinel arrives with an empty
buffer, the content becomes the fallback completion string. -/
theorem c6_deltas_then_done :
    ((applyChunksCB initCB [c6_chunk1, c6_chunk2, " [DONE] "]).msg.content = "Hello" ∧
     (applyChunksCB initCB [c6_chunk1, c6_chunk2, " [DONE] "]).msg.thinkingStatus = .end_ ∧
     (applyChunksCB initCB [c6_chunk1, c6_chunk2, " [DONE] "]).msg.isStreaming = false) ∧
    ∀ (st : StreamStCB) (chunk : String),
      jsTrimStr chunk = "[DONE]" → st.contentBuffer = "" →
      (applyChunkCB st chunk).msg.content = "查詢完成" ∧
      (applyChunkCB st chunk).msg.thinkingStatus = .end_ ∧
      (applyChunkCB st chunk).msg.isStreaming = false := by
  refine ⟨⟨rfl, rfl, rfl⟩, ?_⟩
  intro st chunk hd hb
  unfold applyChunkCB
  rw [if_pos hd]
  refine ⟨?_, rfl, rfl⟩
  simp [hb]

/-- Witness for C6's sentinel clause at the fresh state. -/
theorem c6_deltas_then_done_witness :
    jsTrimStr " [DONE] " = "[DONE]" ∧ initCB.contentBuffer = "" ∧
    (applyChunkCB initCB " [DONE] ").msg.content = "查詢完成" := by
  refine ⟨by decide, rfl, ?_⟩
  exact (c6_deltas_then_done.2 initCB " [DONE] " (by decide) rfl).1

/-! ### C8: the legacy-field fallback -/

/-- C8 counterexample: the payload `\x7b"type":"foo","content":"hi"\x7d`
has a non-special type and a non-empty `content` field, so the claim
demands a content delta `hi`; the code leaves the state untouched,
because the `content` fallback additionally requires `type` to be
absent (`json.content && !json.type`). -/
theorem c8_counterexample_typed_content_skipped :
    jsonParse "\x7b\"type\":\"foo\",\"content\":\"hi\"\x7d"
      = some (.obj [("type", .str "foo"), ("content", .str "hi")]) ∧
    truthyO (getField (Json.obj [("type", Json.str "foo"), ("content", Json.str "hi")])
      "content") = true ∧
    applyChunkCB initCB "\x7b\"type\":\"foo\",\"content\":\"hi\"\x7d" = initCB :=
  ⟨rfl, rfl, rfl⟩

/-- C8 (amended): for every parsed payload whose `type` is none of
`explanation`, `status`, `error`, `suggestions` or `done`, the
processor applies the legacy fallback: the first truthy of
`choices[0].delta.content`, `content` (this one only when `type` is
absent or falsy), `delta.content`, `text`, `message`, `reply` is
appended as a content delta (advancing `start → thinking`), and with
none of them the state is unchanged. -/
theorem c8_legacy_fallback (st : StreamStCB) (j : Json)
    (hexp : isStrO (getField j "type") "explanation" = false)
    (hsta : isStrO (getField j "type") "status" = false)
    (herr : isStrO (getField j "type") "error" = false)
    (hsug : isStrO (getField j "type") "suggestions" = false)
    (hdone : isStrO (getField j "type") "done" = false) :
    handleJsonCB st j =
      match legacyContent j with
      | some v => appendDeltaCB st (jsToString v)
      | none => st := by
  have hkeep := hsug
  unfold handleJsonCB
  rw [if_neg (by rw [hexp]; simp), if_neg (by rw [hsta]; simp),
    if_neg (by rw [herr]; simp), if_neg (by rw [hdone]; simp)]

/-- A legacy payload with only a `reply` field. -/
def c8_w_json : Json := .obj [("reply", .str "ok")]

/-- Witness for C8 at the `reply`-only payload. -/
theorem c8_legacy_fallback_witness :
    isStrO (getField c8_w_json "type") "explanation" = false ∧
    handleJsonCB initCB c8_w_json = appendDeltaCB initCB "ok" := by
  refine ⟨rfl, ?_⟩
  rw [c8_legacy_fallback initCB c8_w_json rfl rfl rfl rfl rfl]
  rfl

end GenAI
